import Mathlib

/-!
Verification development for the GymTracker workout-logging application.

The embedding below follows the source files:
  - `types.ts`: the data model (`SetData`, `ExerciseLog`, `WorkoutSession`, `DayType`);
  - `App.tsx`: state initialisation (`workouts` useState initializer), `saveWorkout`,
    `uniqueExercises`, `statsData`, and the aggregate counters of `renderStatsTab`;
  - `services/geminiService.ts`: `analyzeWorkoutProgress`.

Modelling conventions:
  - JavaScript numbers for reps/weights are embedded as `ℚ` (the claims under study
    concern exact max/sum identities, not rounding);
  - `Math.max(...xs)` over a possibly-empty list is embedded as `JSNum`, where
    `JSNum.negInf` is the `-Infinity` result of `Math.max()` with no arguments;
  - `new Date(s).getTime()` is an abstract parameter `getTime : String → ℤ`;
  - `JSON.parse` / `JSON.stringify` and the remote generation call are abstract
    parameters (`parse`, `serialize`, `remote`);
  - `Array.prototype.sort` with a consistent numeric comparator is a stable sort
    (ECMAScript 2019); any two stable sorts of the same list under the same
    consistent comparator coincide, so it is embedded as the stable
    `List.insertionSort` with the relation "comparator ≤ 0", and in-place
    mutation is made explicit by returning the post-call contents of the array;
  - JavaScript `Set` iteration order is insertion order; it is embedded as an
    insertion-order duplicate-free fold (`addName`);
  - the display-only field `date: formatShortDate(w.date)` of a stats point is a
    locale rendering and carries no information beyond `rawDate`; it is omitted.
-/

/-- Day categories, from `types.ts` (`DayType`). -/
inductive DayType where
  | pecho
  | espalda
  | pierna
  deriving DecidableEq, Repr

/-- One performed set, from `types.ts` (`SetData`). -/
structure SetData where
  id : String
  reps : ℚ
  weight : ℚ
  deriving DecidableEq, Repr

/-- One exercise within a session, from `types.ts` (`ExerciseLog`). -/
structure ExerciseLog where
  id : String
  name : String
  sets : List SetData
  deriving DecidableEq, Repr

/-- One completed workout, from `types.ts` (`WorkoutSession`). -/
structure WorkoutSession where
  id : String
  date : String
  type : DayType
  exercises : List ExerciseLog
  notes : Option String := none
  deriving DecidableEq, Repr

/-- JavaScript number extended with `-Infinity`, the value of `Math.max()` on an
empty argument list. -/
inductive JSNum where
  | negInf
  | num (q : ℚ)
  deriving DecidableEq, Repr

/-- Binary `Math.max` on `JSNum` (no `NaN` inputs arise in the embedded code paths). -/
def JSNum.maxOp : JSNum → JSNum → JSNum
  | .negInf, b => b
  | a, .negInf => a
  | .num a, .num b => .num (max a b)

/-- Embedding of `Math.max(...l)`: fold of binary max starting from `-Infinity`. -/
def jsMathMax (l : List ℚ) : JSNum :=
  l.foldl (fun acc x => acc.maxOp (.num x)) .negInf

/-- Derived chart point of `statsData` in `App.tsx` (lines 108-113); the
display-only locale-formatted `date` field is omitted. -/
structure ProgressPoint where
  rawDate : String
  weight : JSNum
  volume : ℚ
  deriving DecidableEq, Repr

/-- Predicate of the filter on line 100 of `App.tsx`:
`w.exercises.some(e => e.name === selectedStatExercise)`. -/
def sessionMatches (selected : String) (w : WorkoutSession) : Bool :=
  w.exercises.any (fun e => e.name = selected)

/-- Point computed from a matched entry (`App.tsx` lines 105-113):
`maxWeight = Math.max(...exercise.sets.map(s => s.weight))` and
`totalVolume = exercise.sets.reduce((acc, s) => acc + (s.weight * s.reps), 0)`. -/
def entryPoint (w : WorkoutSession) (ex : ExerciseLog) : ProgressPoint :=
  { rawDate := w.date
    weight := jsMathMax (ex.sets.map (·.weight))
    volume := ex.sets.foldl (fun acc s => acc + s.weight * s.reps) 0 }

/-- Per-session body of the `.map` on lines 101-114 of `App.tsx`: find the first
entry named `selected` (`w.exercises.find(...)`), return `null` (`none`) if absent. -/
def sessionPoint (selected : String) (w : WorkoutSession) : Option ProgressPoint :=
  match w.exercises.find? (fun e => e.name = selected) with
  | none => none
  | some ex => some (entryPoint w ex)

/-- The `statsData` pipeline of `App.tsx` before its final `.sort`:
`.filter(...)` then `.map(...)` then `.filter(Boolean)` (embedded as `filterMap`). -/
def statsRaw (selected : String) (workouts : List WorkoutSession) : List ProgressPoint :=
  (workouts.filter (sessionMatches selected)).filterMap (sessionPoint selected)

/-- The full `statsData` memo of `App.tsx` (lines 96-117): empty when no exercise
is selected (`!selectedStatExercise`), otherwise the pipeline sorted by
`new Date(a.rawDate).getTime() - new Date(b.rawDate).getTime()` — a stable
ascending sort on `getTime`. -/
def statsData (getTime : String → ℤ) (selected : String)
    (workouts : List WorkoutSession) : List ProgressPoint :=
  if selected = "" then []
  else (statsRaw selected workouts).insertionSort
    (fun a b => getTime a.rawDate ≤ getTime b.rawDate)

/-- Insertion into a JavaScript `Set` viewed as an insertion-ordered
duplicate-free list: add at the end unless already present. -/
def addName (acc : List String) (n : String) : List String :=
  if n ∈ acc then acc else acc ++ [n]

/-- Collection phase of `uniqueExercises` (`App.tsx` lines 91-92):
`workouts.forEach(w => w.exercises.forEach(e => allNames.add(e.name)))`. -/
def collectNames (workouts : List WorkoutSession) : List String :=
  workouts.foldl (fun acc w => w.exercises.foldl (fun acc2 e => addName acc2 e.name) acc) []

/-- The `uniqueExercises` memo of `App.tsx` (lines 90-94):
`Array.from(allNames).sort()` — default lexicographic string sort. -/
def uniqueExercises (workouts : List WorkoutSession) : List String :=
  (collectNames workouts).insertionSort (· ≤ ·)

/-- Active tab of the app (`App.tsx` line 16). -/
inductive Tab where
  | log
  | history
  | stats
  | ai
  deriving DecidableEq, Repr

/-- The slice of the app state that `saveWorkout` reads and writes. -/
structure AppState where
  activeTab : Tab
  workouts : List WorkoutSession
  selectedDay : DayType
  currentSession : List ExerciseLog
  deriving DecidableEq, Repr

/-- The `saveWorkout` handler of `App.tsx` (lines 76-87). `newId` and `newDate`
stand for `generateId()` and `new Date().toISOString()`; the early return on
`currentSession.length === 0` leaves the whole state untouched. -/
def saveWorkout (newId newDate : String) (st : AppState) : AppState :=
  if st.currentSession.length = 0 then st
  else
    { st with
        workouts :=
          { id := newId, date := newDate, type := st.selectedDay,
            exercises := st.currentSession } :: st.workouts
        currentSession := []
        activeTab := .history }

/-- The `workouts` useState initializer of `App.tsx` (lines 17-20):
`const saved = localStorage.getItem(...); return saved ? JSON.parse(saved) : []`.
`slot` is the `getItem` result (`none` for `null`); a stored empty string is
falsy and also yields `[]`. `parse` embeds `JSON.parse`, whose thrown
`SyntaxError` is an `Except.error`; the initializer has no catch, so a parse
error propagates (the startup crash is the `Except.error` outcome). -/
def loadWorkouts (parse : String → Except String (List WorkoutSession))
    (slot : Option String) : Except String (List WorkoutSession) :=
  match slot with
  | none => .ok []
  | some saved => if saved = "" then .ok [] else parse saved

/-- Date portion used by the distinct-days counter (`App.tsx` line 428):
`w.date.split('T')[0]`, i.e. the longest prefix of the string before its first
`'T'` (the whole string when no `'T'` occurs). -/
def datePortion (s : String) : String :=
  ⟨s.data.takeWhile (fun c => c ≠ 'T')⟩

/-- Total-session counter of `renderStatsTab` (`App.tsx` line 420): `workouts.length`. -/
def totalSessions (workouts : List WorkoutSession) : Nat :=
  workouts.length

/-- Insertion-ordered distinct list underlying
`new Set(workouts.map(w => w.date.split('T')[0]))` (`App.tsx` line 428). -/
def distinctDayList (workouts : List WorkoutSession) : List String :=
  (workouts.map (fun w => datePortion w.date)).foldl addName []

/-- Distinct-days counter of `renderStatsTab` (`App.tsx` line 428): the `.size`
of the set above. -/
def distinctDays (workouts : List WorkoutSession) : Nat :=
  (distinctDayList workouts).length

/-- Fallback string returned when no API key is configured
(`geminiService.ts` line 13). -/
def msgNoApiKey : String :=
  "API Key no configurada. Por favor configura tu API Key para recibir consejos."

/-- Fallback string returned when the response text is empty or absent
(`geminiService.ts` line 41). -/
def msgEmptyResponse : String :=
  "No se pudo generar un análisis en este momento."

/-- Fallback string returned from the catch block (`geminiService.ts` line 44). -/
def msgRemoteError : String :=
  "Hubo un error al conectar con el entrenador IA. Inténtalo más tarde."

/-- Fixed text of the instruction template before the serialized history
(`geminiService.ts` lines 21-26). -/
def promptIntro : String :=
  "\n    Actúa como un entrenador personal experto de alto nivel.\n    Analiza mi historial reciente de entrenamientos en el gimnasio.\n    \n    Aquí están mis últimos registros (en formato JSON):\n    "

/-- Fixed text of the instruction template after the serialized history
(`geminiService.ts` lines 27-34). -/
def promptOutro : String :=
  "\n\n    Proporciona un análisis breve pero perspicaz (máximo 2 párrafos) sobre mi progreso.\n    1. Identifica si estoy aplicando sobrecarga progresiva (subiendo peso o repeticiones).\n    2. Si ves estancamiento, sugiere un cambio específico (ej. dropsets, cambio de rango de reps).\n    3. Mantén un tono motivador pero técnico.\n    \n    Responde en Español y usa formato Markdown.\n  "

/-- The in-place `history.sort((a, b) => new Date(b.date).getTime() - new Date(a.date).getTime())`
of `geminiService.ts` (lines 17-18): a stable descending sort by `getTime`. -/
def jsSortByDateDesc (getTime : String → ℤ) (history : List WorkoutSession) :
    List WorkoutSession :=
  history.insertionSort (fun a b => getTime b.date ≤ getTime a.date)

/-- The `recentHistory` value of `geminiService.ts` (lines 17-19): the sorted
history sliced to its first 10 elements. -/
def recentHistory (getTime : String → ℤ) (history : List WorkoutSession) :
    List WorkoutSession :=
  (jsSortByDateDesc getTime history).take 10

/-- Outcome of `analyzeWorkoutProgress`: the returned string, the request prompt
actually sent (`none` when no call was made), and the post-call contents of the
caller's `history` array (`Array.prototype.sort` mutates it in place). -/
structure AnalysisResult where
  text : String
  request : Option String
  historyAfter : List WorkoutSession
  deriving DecidableEq, Repr

/-- The `analyzeWorkoutProgress` function of `geminiService.ts` (lines 10-46).
`apiKey` embeds `process.env.API_KEY` (an empty string is falsy, hence no
client); `remote prompt` embeds the awaited `generateContent` call, returning
`Except.error` for a thrown error and `Option String` for `response.text`
(`none` for `undefined`); `response.text || fallback` treats the empty string
as falsy. The sort on line 18 runs before the try block, so the caller's array
is permuted whenever a client exists, even if the remote call then fails. -/
def analyzeWorkoutProgress (getTime : String → ℤ)
    (serialize : List WorkoutSession → String) (apiKey : Option String)
    (remote : String → Except String (Option String))
    (history : List WorkoutSession) : AnalysisResult :=
  match apiKey with
  | none => { text := msgNoApiKey, request := none, historyAfter := history }
  | some key =>
    if key = "" then { text := msgNoApiKey, request := none, historyAfter := history }
    else
      let sorted := jsSortByDateDesc getTime history
      let prompt := promptIntro ++ serialize (sorted.take 10) ++ promptOutro
      match remote prompt with
      | .error _ => { text := msgRemoteError, request := some prompt, historyAfter := sorted }
      | .ok none => { text := msgEmptyResponse, request := some prompt, historyAfter := sorted }
      | .ok (some t) =>
        { text := if t = "" then msgEmptyResponse else t,
          request := some prompt, historyAfter := sorted }

/-! ### Helper lemmas -/

/-- Taking the max with `-Infinity` on the left is the identity. -/
theorem JSNum.maxOp_negInf_left (b : JSNum) : JSNum.maxOp .negInf b = b := by
  cases b <;> rfl

/-- Folding the binary max from a finite seed stays finite and agrees with the
`max` fold on `ℚ`. -/
theorem jsMathMax_foldl_num (l : List ℚ) (q : ℚ) :
    l.foldl (fun acc x => JSNum.maxOp acc (JSNum.num x)) (JSNum.num q)
      = JSNum.num (l.foldl max q) := by
  induction l generalizing q with
  | nil => rfl
  | cons x l ih => simpa [List.foldl_cons, JSNum.maxOp] using ih (max q x)

/-- On a nonempty list `Math.max` returns the finite `max` fold seeded by the head. -/
theorem jsMathMax_cons (x : ℚ) (l : List ℚ) :
    jsMathMax (x :: l) = JSNum.num (l.foldl max x) := by
  simp only [jsMathMax, List.foldl_cons, JSNum.maxOp_negInf_left]
  exact jsMathMax_foldl_num l x

/-- The seed is bounded by the `max` fold. -/
theorem le_foldl_max (l : List ℚ) (a : ℚ) : a ≤ l.foldl max a := by
  induction l generalizing a with
  | nil => exact le_refl a
  | cons x l ih =>
    simp only [List.foldl_cons]
    exact le_trans (le_max_left a x) (ih (max a x))

/-- Every member of the list is bounded by the `max` fold. -/
theorem mem_le_foldl_max (l : List ℚ) (a x : ℚ) (hx : x ∈ l) : x ≤ l.foldl max a := by
  induction l generalizing a with
  | nil => cases hx
  | cons y l ih =>
    simp only [List.foldl_cons]
    rcases List.mem_cons.mp hx with h | h
    · subst h
      exact le_trans (le_max_right a x) (le_foldl_max l (max a x))
    · exact ih (max a y) h

/-- The `max` fold is the seed or a member of the list. -/
theorem foldl_max_mem (l : List ℚ) (a : ℚ) : l.foldl max a = a ∨ l.foldl max a ∈ l := by
  induction l generalizing a with
  | nil => exact Or.inl rfl
  | cons x l ih =>
    simp only [List.foldl_cons]
    rcases ih (max a x) with h | h
    · rcases max_choice a x with hax | hax
      · exact Or.inl (h.trans hax)
      · exact Or.inr (by rw [h, hax]; exact List.mem_cons_self x l)
    · exact Or.inr (List.mem_cons_of_mem x h)

/-- The volume fold of `statsData` is the sum of per-set `reps * weight`. -/
theorem foldl_volume_eq_sum (l : List SetData) (c : ℚ) :
    l.foldl (fun acc s => acc + s.weight * s.reps) c
      = c + (l.map (fun s => s.reps * s.weight)).sum := by
  induction l generalizing c with
  | nil => simp
  | cons s l ih =>
    simp only [List.foldl_cons, List.map_cons, List.sum_cons, ih]
    ring

/-- `find?` on a list that starts with non-matches followed by a match returns
that first match. -/
theorem find_first_of_append (p : ExerciseLog → Bool) (pre post : List ExerciseLog)
    (e1 : ExerciseLog) (hpre : ∀ e ∈ pre, p e = false) (he : p e1 = true) :
    (pre ++ e1 :: post).find? p = some e1 := by
  induction pre with
  | nil => simp [List.find?_cons, he]
  | cons e pre ih =>
    have hne : p e = false := hpre e (List.mem_cons_self e pre)
    simp only [List.cons_append, List.find?_cons, hne]
    exact ih (fun x hx => hpre x (List.mem_cons_of_mem e hx))

/-- Membership after a single set-style insertion. -/
theorem mem_addName {acc : List String} {n m : String} :
    m ∈ addName acc n ↔ m ∈ acc ∨ m = n := by
  by_cases h : n ∈ acc
  · simp only [addName, if_pos h]
    constructor
    · exact Or.inl
    · rintro (h' | rfl)
      · exact h'
      · exact h
  · simp [addName, if_neg h]

/-- A set-style insertion preserves freedom from duplicates. -/
theorem nodup_addName {acc : List String} (n : String) (h : acc.Nodup) :
    (addName acc n).Nodup := by
  by_cases hn : n ∈ acc
  · simpa [addName, hn] using h
  · simp only [addName, if_neg hn]
    rw [List.nodup_append]
    exact ⟨h, List.nodup_singleton n, by simpa [List.disjoint_singleton] using hn⟩

/-- Membership in a fold of set-style insertions over a list of names. -/
theorem mem_foldl_addName (l : List String) (acc : List String) (m : String) :
    m ∈ l.foldl addName acc ↔ m ∈ acc ∨ m ∈ l := by
  induction l generalizing acc with
  | nil => simp
  | cons x l ih =>
    simp only [List.foldl_cons, ih, mem_addName, List.mem_cons]
    tauto

/-- A fold of set-style insertions over names preserves freedom from duplicates. -/
theorem nodup_foldl_addName (l : List String) (acc : List String) (h : acc.Nodup) :
    (l.foldl addName acc).Nodup := by
  induction l generalizing acc with
  | nil => exact h
  | cons x l ih => exact ih _ (nodup_addName x h)

/-- Membership in the inner fold of `collectNames` over a session's exercises. -/
theorem mem_exfold_addName (l : List ExerciseLog) (acc : List String) (m : String) :
    m ∈ l.foldl (fun acc2 e => addName acc2 e.name) acc ↔ m ∈ acc ∨ ∃ e ∈ l, e.name = m := by
  induction l generalizing acc with
  | nil => simp
  | cons e l ih =>
    simp only [List.foldl_cons, ih, mem_addName, List.mem_cons]
    constructor
    · rintro ((h | h) | ⟨e', he', h⟩)
      · exact Or.inl h
      · exact Or.inr ⟨e, Or.inl rfl, h.symm⟩
      · exact Or.inr ⟨e', Or.inr he', h⟩
    · rintro (h | ⟨e', (rfl | he'), h⟩)
      · exact Or.inl (Or.inl h)
      · exact Or.inl (Or.inr h.symm)
      · exact Or.inr ⟨e', he', h⟩

/-- The inner fold of `collectNames` preserves freedom from duplicates. -/
theorem nodup_exfold_addName (l : List ExerciseLog) (acc : List String) (h : acc.Nodup) :
    (l.foldl (fun acc2 e => addName acc2 e.name) acc).Nodup := by
  induction l generalizing acc with
  | nil => exact h
  | cons e l ih => exact ih _ (nodup_addName e.name h)

/-- Membership in the outer fold of `collectNames`. -/
theorem mem_collectNames_fold (ws : List WorkoutSession) (acc : List String) (m : String) :
    m ∈ ws.foldl (fun acc w => w.exercises.foldl (fun acc2 e => addName acc2 e.name) acc) acc
      ↔ m ∈ acc ∨ ∃ w ∈ ws, ∃ e ∈ w.exercises, e.name = m := by
  induction ws generalizing acc with
  | nil => simp
  | cons w ws ih =>
    simp only [List.foldl_cons, ih, mem_exfold_addName, List.mem_cons]
    constructor
    · rintro ((h | ⟨e, he, h⟩) | ⟨w', hw', e, he, h⟩)
      · exact Or.inl h
      · exact Or.inr ⟨w, Or.inl rfl, e, he, h⟩
      · exact Or.inr ⟨w', Or.inr hw', e, he, h⟩
    · rintro (h | ⟨w', (rfl | hw'), e, he, h⟩)
      · exact Or.inl (Or.inl h)
      · exact Or.inl (Or.inr ⟨e, he, h⟩)
      · exact Or.inr ⟨w', hw', e, he, h⟩

/-- The name collection of `uniqueExercises` has no duplicates. -/
theorem nodup_collectNames (ws : List WorkoutSession) : (collectNames ws).Nodup := by
  rw [collectNames]
  generalize hacc : ([] : List String) = acc
  have hnd : acc.Nodup := by rw [← hacc]; exact List.nodup_nil
  clear hacc
  induction ws generalizing acc with
  | nil => exact hnd
  | cons w ws ih => exact ih _ (nodup_exfold_addName _ _ hnd)

/-! ### Concrete fixtures used by evaluation theorems and witnesses -/

/-- A session whose only "Squat" entry has zero sets. -/
def zeroSetsSession : WorkoutSession :=
  { id := "z1", date := "2024-01-01T00:00:00.000Z", type := .pierna,
    exercises := [{ id := "e1", name := "Squat", sets := [] }] }

/-- The "Squat" entry of Scenario A: sets [(5,100),(5,110)]. -/
def squatEntry : ExerciseLog :=
  { id := "e1", name := "Squat",
    sets := [{ id := "a", reps := 5, weight := 100 }, { id := "b", reps := 5, weight := 110 }] }

/-- The session of Scenario A, dated 2024-01-01. -/
def squatSession : WorkoutSession :=
  { id := "s1", date := "2024-01-01T00:00:00.000Z", type := .pierna, exercises := [squatEntry] }

/-! ### Claim theorems -/

/-- C1 (refuted, code bug): the claim says a session whose matched entry has zero
sets is excluded from the Metrics Deriver's output. On the collection holding
only `zeroSetsSession` with "Squat" selected, the code instead emits a point for
that session whose max-weight is `Math.max()` of no arguments, i.e. the
non-finite `-Infinity`: nothing in the pipeline (`filter(Boolean)` only drops
`null`) removes it. -/
theorem statsData_zero_sets_point_not_excluded :
    statsData (fun _ => 0) "Squat" [zeroSetsSession]
      = [{ rawDate := "2024-01-01T00:00:00.000Z", weight := JSNum.negInf, volume := 0 }] := by
  decide

/-- C2 (refuted, code bug): the claim says a persistence slot whose contents fail
to parse yields an empty collection with no crash. The initializer
`saved ? JSON.parse(saved) : []` has no catch: on unparseable contents
(here the string "not json", on which `JSON.parse` throws a `SyntaxError`) the
exception propagates out of the state initializer — the error outcome below —
instead of producing `.ok []`. Absence of the slot does yield the empty
collection. -/
theorem loadWorkouts_parse_failure_is_error :
    loadWorkouts (fun _ => Except.error "SyntaxError: Unexpected token")
        (some "not json")
      = Except.error "SyntaxError: Unexpected token"
    ∧ loadWorkouts (fun _ => Except.error "SyntaxError: Unexpected token") none
      = Except.ok [] :=
  ⟨rfl, rfl⟩

/-- C5: finalizing an empty draft is a no-op on the whole app state, and
finalizing a nonempty draft prepends exactly one new session built from the
draft to the front of the collection and clears the draft. -/
theorem saveWorkout_empty_noop_nonempty_prepends (newId newDate : String) (st : AppState) :
    (st.currentSession = [] → saveWorkout newId newDate st = st)
    ∧ (st.currentSession ≠ [] →
        (saveWorkout newId newDate st).workouts
          = { id := newId, date := newDate, type := st.selectedDay,
              exercises := st.currentSession, notes := none } :: st.workouts
        ∧ (saveWorkout newId newDate st).currentSession = []) := by
  constructor
  · intro h
    simp [saveWorkout, h]
  · intro h
    have hlen : ¬ st.currentSession.length = 0 := by
      simpa [List.length_eq_zero] using h
    rw [saveWorkout, if_neg hlen]
    exact ⟨rfl, rfl⟩

/-- Witness for C5: applied to a concrete nonempty draft (one bench-press entry)
and to a concrete empty-draft state. -/
theorem saveWorkout_empty_noop_nonempty_prepends_witness :
    saveWorkout "w9" "2024-01-02T00:00:00.000Z"
        { activeTab := .log, workouts := [], selectedDay := .pecho, currentSession := [] }
      = { activeTab := .log, workouts := [], selectedDay := .pecho, currentSession := [] }
    ∧ (saveWorkout "w9" "2024-01-02T00:00:00.000Z"
        { activeTab := .log, workouts := [], selectedDay := .pecho,
          currentSession := [squatEntry] }).workouts
      = [{ id := "w9", date := "2024-01-02T00:00:00.000Z", type := .pecho,
           exercises := [squatEntry], notes := none }]
    ∧ (saveWorkout "w9" "2024-01-02T00:00:00.000Z"
        { activeTab := .log, workouts := [], selectedDay := .pecho,
          currentSession := [squatEntry] }).currentSession = [] := by
  refine ⟨?_, ?_⟩
  · exact (saveWorkout_empty_noop_nonempty_prepends "w9" "2024-01-02T00:00:00.000Z"
      { activeTab := .log, workouts := [], selectedDay := .pecho,
        currentSession := [] }).1 rfl
  · exact (saveWorkout_empty_noop_nonempty_prepends "w9" "2024-01-02T00:00:00.000Z"
      { activeTab := .log, workouts := [], selectedDay := .pecho,
        currentSession := [squatEntry] }).2 (List.cons_ne_nil _ _)

/-- C6: the Exercise Catalog Extractor returns exactly the names appearing in
some session's exercise list (case-sensitive exact string equality), with no
duplicates, sorted ascending lexicographically. -/
theorem uniqueExercises_distinct_sorted_exact (workouts : List WorkoutSession) :
    (∀ n, n ∈ uniqueExercises workouts ↔ ∃ w ∈ workouts, ∃ e ∈ w.exercises, e.name = n)
    ∧ (uniqueExercises workouts).Nodup
    ∧ (uniqueExercises workouts).Sorted (· ≤ ·) := by
  refine ⟨?_, ?_, ?_⟩
  · intro n
    rw [uniqueExercises, List.mem_insertionSort, collectNames, mem_collectNames_fold]
    simp
  · rw [uniqueExercises]
    exact (List.perm_insertionSort _ _).nodup_iff.mpr (nodup_collectNames workouts)
  · exact List.sorted_insertionSort (· ≤ ·) (collectNames workouts)

/-- C7: the aggregate summary's total is the number of sessions, its
distinct-day count is the number of distinct date portions (part of the ISO
string before the first 'T') over the sessions, and on the empty collection the
totals are 0 and the catalog is empty; the date portion is illustrated on a
concrete ISO timestamp. -/
theorem aggregate_counts_correct (workouts : List WorkoutSession) :
    totalSessions workouts = workouts.length
    ∧ distinctDays workouts
        = (workouts.map (fun w => datePortion w.date)).toFinset.card
    ∧ totalSessions [] = 0 ∧ distinctDays [] = 0 ∧ uniqueExercises [] = []
    ∧ datePortion "2024-01-01T10:00:00.000Z" = "2024-01-01" := by
  refine ⟨rfl, ?_, rfl, rfl, rfl, by decide⟩
  have hnd : (distinctDayList workouts).Nodup :=
    nodup_foldl_addName _ _ List.nodup_nil
  have hmem : ∀ m, m ∈ distinctDayList workouts
      ↔ m ∈ workouts.map (fun w => datePortion w.date) := by
    intro m
    rw [distinctDayList, mem_foldl_addName]
    simp
  have hfin : (distinctDayList workouts).toFinset
      = (workouts.map (fun w => datePortion w.date)).toFinset := by
    apply Finset.ext
    intro m
    simpa [List.mem_toFinset] using hmem m
  rw [distinctDays, ← List.toFinset_card_of_nodup hnd, hfin]

/-- C3: for a session whose matched entry has at least one set, the Metrics
Deriver's point for that session appears in the output, its max-weight is the
(finite) maximum of the entry's set weights, and its volume is the sum of
reps·weight over the entry's sets. -/
theorem statsData_point_max_and_volume (getTime : String → ℤ) (selected : String)
    (workouts : List WorkoutSession) (w : WorkoutSession) (ex : ExerciseLog)
    (hsel : selected ≠ "") (hw : w ∈ workouts)
    (hfind : w.exercises.find? (fun e => e.name = selected) = some ex)
    (hne : ex.sets ≠ []) :
    entryPoint w ex ∈ statsData getTime selected workouts
    ∧ (∃ q, (entryPoint w ex).weight = JSNum.num q
        ∧ q ∈ ex.sets.map (fun s => s.weight)
        ∧ ∀ x ∈ ex.sets.map (fun s => s.weight), x ≤ q)
    ∧ (entryPoint w ex).volume = (ex.sets.map (fun s => s.reps * s.weight)).sum := by
  refine ⟨?_, ?_, ?_⟩
  · rw [statsData, if_neg hsel, List.mem_insertionSort, statsRaw, List.mem_filterMap]
    refine ⟨w, ?_, ?_⟩
    · rw [List.mem_filter]
      refine ⟨hw, ?_⟩
      rw [sessionMatches, List.any_eq_true]
      have hp := @List.find?_some ExerciseLog (fun e => decide (e.name = selected)) ex
        w.exercises hfind
      exact ⟨ex, List.mem_of_find?_eq_some hfind, hp⟩
    · unfold sessionPoint
      rw [hfind]
  · obtain ⟨x, l, hxl⟩ := List.exists_cons_of_ne_nil hne
    refine ⟨(l.map (fun s => s.weight)).foldl max x.weight, ?_, ?_, ?_⟩
    · show jsMathMax (ex.sets.map (fun s => s.weight)) = _
      rw [hxl, List.map_cons, jsMathMax_cons]
    · rw [hxl, List.map_cons]
      rcases foldl_max_mem (l.map (fun s => s.weight)) x.weight with h | h
      · rw [h]
        exact List.mem_cons_self _ _
      · exact List.mem_cons_of_mem _ h
    · intro y hy
      rw [hxl, List.map_cons, List.mem_cons] at hy
      rcases hy with rfl | hy
      · exact le_foldl_max _ _
      · exact mem_le_foldl_max _ _ _ hy
  · show ex.sets.foldl (fun acc s => acc + s.weight * s.reps) 0 = _
    rw [foldl_volume_eq_sum, zero_add]

/-- Witness for C3, Scenario A: one session dated 2024-01-01 with "Squat" sets
[(5,100),(5,110)]; the theorem applies, and the derived point is concretely
the singleton with max-weight 110 and volume 5·100 + 5·110 = 1050. -/
theorem statsData_point_max_and_volume_witness :
    entryPoint squatSession squatEntry ∈ statsData (fun _ => 0) "Squat" [squatSession]
    ∧ statsData (fun _ => 0) "Squat" [squatSession]
      = [{ rawDate := "2024-01-01T00:00:00.000Z", weight := JSNum.num 110, volume := 1050 }] := by
  constructor
  · exact (statsData_point_max_and_volume (fun _ => 0) "Squat" [squatSession]
      squatSession squatEntry (by decide) (List.mem_cons_self _ _) (by decide) (by decide)).1
  · norm_num [statsData, statsRaw, sessionPoint, entryPoint, sessionMatches, jsMathMax,
      List.insertionSort, List.orderedInsert, squatSession, squatEntry, JSNum.maxOp]
    decide

/-- The "Bench" entry (max 80) of Scenario B. -/
def benchEntry1 : ExerciseLog :=
  { id := "e1", name := "Bench", sets := [{ id := "s", reps := 5, weight := 80 }] }

/-- The "Bench" entry (max 85) of Scenario B. -/
def benchEntry2 : ExerciseLog :=
  { id := "e2", name := "Bench", sets := [{ id := "s", reps := 5, weight := 85 }] }

/-- The Scenario B session dated 2024-01-01. -/
def benchSession1 : WorkoutSession :=
  { id := "w1", date := "2024-01-01T00:00:00.000Z", type := .pecho, exercises := [benchEntry1] }

/-- The Scenario B session dated 2024-01-08. -/
def benchSession2 : WorkoutSession :=
  { id := "w2", date := "2024-01-08T00:00:00.000Z", type := .pecho, exercises := [benchEntry2] }

/-- C4: the Metrics Deriver's output is sorted ascending (monotonically
non-decreasing) in the session timestamp, and the sort is stable: two points
with equal timestamps that appear in a given order in the unsorted pipeline
(which lists sessions in original collection order) keep that order in the
output. -/
theorem statsData_sorted_and_stable (getTime : String → ℤ) (selected : String)
    (workouts : List WorkoutSession) :
    (statsData getTime selected workouts).Sorted
        (fun a b => getTime a.rawDate ≤ getTime b.rawDate)
    ∧ (selected ≠ "" → ∀ a b : ProgressPoint,
        getTime a.rawDate = getTime b.rawDate →
        List.Sublist [a, b] (statsRaw selected workouts) →
        List.Sublist [a, b] (statsData getTime selected workouts)) := by
  constructor
  · by_cases hsel : selected = ""
    · rw [statsData, if_pos hsel]
      exact List.sorted_nil
    · rw [statsData, if_neg hsel]
      haveI : IsTotal ProgressPoint (fun a b => getTime a.rawDate ≤ getTime b.rawDate) :=
        ⟨fun a b => le_total _ _⟩
      haveI : IsTrans ProgressPoint (fun a b => getTime a.rawDate ≤ getTime b.rawDate) :=
        ⟨fun _ _ _ hab hbc => le_trans hab hbc⟩
      exact List.sorted_insertionSort _ _
  · intro hsel a b heq hsub
    rw [statsData, if_neg hsel]
    exact List.pair_sublist_insertionSort heq.le hsub

/-- Witness for C4: two "Bench" sessions; with a timestamp function making the
two dates equal the stability part applies and keeps collection order, and with
the real date order (2024-01-01 before 2024-01-08) the output is concretely
[80-session, 85-session] ascending even when the collection is most-recent
first (Scenario B). -/
theorem statsData_sorted_and_stable_witness :
    List.Sublist
      [entryPoint benchSession1 benchEntry1, entryPoint benchSession2 benchEntry2]
      (statsData (fun _ => 0) "Bench" [benchSession1, benchSession2])
    ∧ statsData (fun s => if s = "2024-01-08T00:00:00.000Z" then 8 else 1) "Bench"
        [benchSession2, benchSession1]
      = [entryPoint benchSession1 benchEntry1, entryPoint benchSession2 benchEntry2] := by
  constructor
  · have hraw : statsRaw "Bench" [benchSession1, benchSession2]
        = [entryPoint benchSession1 benchEntry1, entryPoint benchSession2 benchEntry2] := by
      simp [statsRaw, sessionPoint, sessionMatches, benchSession1, benchSession2,
        benchEntry1, benchEntry2]
    exact (statsData_sorted_and_stable (fun _ => 0) "Bench"
      [benchSession1, benchSession2]).2 (by decide) _ _ rfl (hraw ▸ List.Sublist.refl _)
  · rw [statsData, if_neg (by decide)]
    have hraw : statsRaw "Bench" [benchSession2, benchSession1]
        = [entryPoint benchSession2 benchEntry2, entryPoint benchSession1 benchEntry1] := by
      simp [statsRaw, sessionPoint, sessionMatches, benchSession2, benchSession1,
        benchEntry2, benchEntry1]
    rw [hraw]
    have h1 : (entryPoint benchSession1 benchEntry1).rawDate = "2024-01-01T00:00:00.000Z" := rfl
    have h2 : (entryPoint benchSession2 benchEntry2).rawDate = "2024-01-08T00:00:00.000Z" := rfl
    simp [List.insertionSort, List.orderedInsert, h1, h2]

/-- C8: when a session's exercise list splits as `pre ++ e1 :: post` with no
entry of `pre` matching and `e1` matching the target name exactly, the
deriver's point for that session is computed from `e1` alone — entries of
`post`, including duplicates of the target name, are ignored — and that point
is the session's contribution to the pipeline. -/
theorem sessionPoint_first_match_only (selected : String) (w : WorkoutSession)
    (pre post : List ExerciseLog) (e1 : ExerciseLog)
    (hsplit : w.exercises = pre ++ e1 :: post)
    (hpre : ∀ e ∈ pre, e.name ≠ selected) (he1 : e1.name = selected) :
    sessionPoint selected w = some (entryPoint w e1)
    ∧ ∀ workouts, w ∈ workouts → entryPoint w e1 ∈ statsRaw selected workouts := by
  have hfind : w.exercises.find? (fun e => e.name = selected) = some e1 := by
    rw [hsplit]
    exact find_first_of_append _ pre post e1
      (fun e he => by simp [hpre e he]) (by simp [he1])
  constructor
  · unfold sessionPoint
    rw [hfind]
  · intro workouts hw
    rw [statsRaw, List.mem_filterMap]
    refine ⟨w, ?_, ?_⟩
    · rw [List.mem_filter]
      refine ⟨hw, ?_⟩
      rw [sessionMatches, List.any_eq_true]
      refine ⟨e1, ?_, by simp [he1]⟩
      rw [hsplit]
      exact List.mem_append_right _ (List.mem_cons_self _ _)
    · unfold sessionPoint
      rw [hfind]

/-- A session holding two entries that are both named "Squat" (max 100 first,
max 200 second). -/
def dupSession : WorkoutSession :=
  { id := "w", date := "2024-01-05T00:00:00.000Z", type := .pierna,
    exercises := [{ id := "e1", name := "Squat", sets := [{ id := "s", reps := 5, weight := 100 }] },
                  { id := "e2", name := "Squat", sets := [{ id := "s", reps := 5, weight := 200 }] }] }

/-- Witness for C8: on a session with two "Squat" entries the point is the first
entry's (max-weight 100), not the second's (max-weight 200). -/
theorem sessionPoint_first_match_only_witness :
    sessionPoint "Squat" dupSession
      = some (entryPoint dupSession (dupSession.exercises.headD ⟨"", "", []⟩))
    ∧ (entryPoint dupSession (dupSession.exercises.headD ⟨"", "", []⟩)).weight = JSNum.num 100
    ∧ JSNum.num (100 : ℚ) ≠ JSNum.num 200 := by
  refine ⟨?_, rfl, by decide⟩
  exact (sessionPoint_first_match_only "Squat" dupSession []
    [{ id := "e2", name := "Squat", sets := [{ id := "s", reps := 5, weight := 200 }] }]
    (dupSession.exercises.headD ⟨"", "", []⟩) rfl (by simp) rfl).1

/-- C9: the analysis operation always returns a string that is either one of
the three fixed fallback strings (missing credentials, remote failure,
empty/unparseable response) or the remote service's response text to the
request it sent; any request it builds embeds exactly the serialized 10 most
recent sessions (the descending-by-date sort's first 10, each of which is at
least as recent as every session left out). -/
theorem analyzeWorkoutProgress_outcomes_and_recent (getTime : String → ℤ)
    (serialize : List WorkoutSession → String) (apiKey : Option String)
    (remote : String → Except String (Option String)) (history : List WorkoutSession) :
    ((analyzeWorkoutProgress getTime serialize apiKey remote history).text = msgNoApiKey
      ∨ (analyzeWorkoutProgress getTime serialize apiKey remote history).text = msgRemoteError
      ∨ (analyzeWorkoutProgress getTime serialize apiKey remote history).text = msgEmptyResponse
      ∨ ∃ p, (analyzeWorkoutProgress getTime serialize apiKey remote history).request = some p
          ∧ remote p = Except.ok
              (some (analyzeWorkoutProgress getTime serialize apiKey remote history).text))
    ∧ (∀ p, (analyzeWorkoutProgress getTime serialize apiKey remote history).request = some p →
        p = promptIntro ++ serialize (recentHistory getTime history) ++ promptOutro)
    ∧ (recentHistory getTime history).length ≤ 10
    ∧ (∀ a ∈ recentHistory getTime history,
        ∀ b ∈ (jsSortByDateDesc getTime history).drop 10,
        getTime b.date ≤ getTime a.date) := by
  refine ⟨?_, ?_, ?_, ?_⟩
  · rcases apiKey with _ | key
    · exact Or.inl rfl
    · by_cases hk : key = ""
      · simp only [analyzeWorkoutProgress, if_pos hk]
        exact Or.inl trivial
      · simp only [analyzeWorkoutProgress, if_neg hk]
        rcases hrem : remote (promptIntro
            ++ serialize ((jsSortByDateDesc getTime history).take 10) ++ promptOutro)
          with e | o
        · exact Or.inr (Or.inl rfl)
        · rcases o with _ | t
          · exact Or.inr (Or.inr (Or.inl rfl))
          · by_cases ht : t = ""
            · refine Or.inr (Or.inr (Or.inl ?_))
              show (if t = "" then msgEmptyResponse else t) = msgEmptyResponse
              rw [if_pos ht]
            · refine Or.inr (Or.inr (Or.inr ⟨_, rfl, ?_⟩))
              show remote _ = Except.ok (some (if t = "" then msgEmptyResponse else t))
              rw [if_neg ht]
              exact hrem
  · intro p hp
    rcases apiKey with _ | key
    · exact Option.noConfusion hp
    · by_cases hk : key = ""
      · simp only [analyzeWorkoutProgress, if_pos hk] at hp
        exact Option.noConfusion hp
      · simp only [analyzeWorkoutProgress, if_neg hk] at hp
        rcases hrem : remote (promptIntro
            ++ serialize ((jsSortByDateDesc getTime history).take 10) ++ promptOutro)
          with e | o
        · rw [hrem] at hp
          exact (Option.some_inj.mp hp).symm
        · rcases o with _ | t
          · rw [hrem] at hp
            exact (Option.some_inj.mp hp).symm
          · rw [hrem] at hp
            exact (Option.some_inj.mp hp).symm
  · exact List.length_take_le 10 _
  · intro a ha b hb
    haveI : IsTotal WorkoutSession (fun a b => getTime b.date ≤ getTime a.date) :=
      ⟨fun a b => le_total _ _⟩
    haveI : IsTrans WorkoutSession (fun a b => getTime b.date ≤ getTime a.date) :=
      ⟨fun _ _ _ hab hbc => le_trans hbc hab⟩
    have hs : (jsSortByDateDesc getTime history).Pairwise
        (fun a b => getTime b.date ≤ getTime a.date) := by
      rw [jsSortByDateDesc]
      exact List.sorted_insertionSort _ _
    rw [← List.take_append_drop 10 (jsSortByDateDesc getTime history),
      List.pairwise_append] at hs
    rw [recentHistory] at ha
    exact hs.2.2 a ha b hb

/-- Witness for C9: with a configured key and a remote call answering "hola",
the theorem applies and the returned text is concretely that response. -/
theorem analyzeWorkoutProgress_outcomes_and_recent_witness :
    (analyzeWorkoutProgress (fun _ => 0) (fun _ => "[]") (some "key")
        (fun _ => Except.ok (some "hola")) []).text = "hola"
    ∧ (analyzeWorkoutProgress (fun _ => 0) (fun _ => "[]") (some "key")
        (fun _ => Except.ok (some "hola")) []).request
      = some (promptIntro ++ "[]" ++ promptOutro)
    ∧ (recentHistory (fun _ => 0) ([] : List WorkoutSession)).length ≤ 10 := by
  have h := analyzeWorkoutProgress_outcomes_and_recent (fun _ => 0) (fun _ => "[]")
    (some "key") (fun _ => Except.ok (some "hola")) []
  refine ⟨rfl, ?_, h.2.2.1⟩
  have hreq := h.2.1 (promptIntro ++ "[]" ++ promptOutro) rfl
  rfl

/-- C10: the analysis operation is not effect-free on its argument: on a
two-session history stored most-recent-last, the in-place descending sort on
line 18 of `geminiService.ts` leaves the caller's array (here its post-call
contents `historyAfter`) in a different order — a permutation of, but not equal
to, what the caller passed in. `App.tsx` passes the `workouts` state array
itself, so the in-memory collection's order changes as a side effect. -/
theorem analyzeWorkoutProgress_mutates_caller_history :
    (analyzeWorkoutProgress
        (fun s => if s = "2024-01-08T00:00:00.000Z" then 8 else 1)
        (fun _ => "[]") (some "key") (fun _ => Except.ok none)
        [benchSession1, benchSession2]).historyAfter
      = [benchSession2, benchSession1]
    ∧ [benchSession2, benchSession1] ≠ [benchSession1, benchSession2]
    ∧ ([benchSession2, benchSession1] : List WorkoutSession).Perm
        [benchSession1, benchSession2] := by
  refine ⟨?_, by decide, List.Perm.swap _ _ _⟩
  simp only [analyzeWorkoutProgress, if_neg (show ¬("key" = "") by decide)]
  simp [jsSortByDateDesc, List.insertionSort, List.orderedInsert,
    benchSession1, benchSession2]
